import Mathlib

/-!
Verification of the AMM front end's computational core: pair-address
ordering helpers, hash normalization, swap preview math, the RPC relay,
the staking guards, and balance formatting.  Each definition is a shallow
embedding of the corresponding TypeScript function; JavaScript numbers are
idealized as rationals, bigints as naturals/integers, and thrown
exceptions as `Option.none`.
-/

/-! ## Hash helpers from `src/components/Swap.tsx`

Strings are manipulated through their character lists so that every
operation is structurally recursive and evaluates inside the kernel. -/

/-- `pre` is a leading run of `s`. -/
def listIsLeading : List Char → List Char → Bool
  | [], _ => true
  | _ :: _, [] => false
  | p :: ps, c :: cs => (p == c) && listIsLeading ps cs

/-- JS `s.startsWith(p)`. -/
def strStartsWith (s p : String) : Bool :=
  listIsLeading p.data s.data

/-- JS `s.toLowerCase()` (ASCII, which is all the configured keys use). -/
def strToLower (s : String) : String :=
  ⟨s.data.map Char.toLower⟩

/-- One step of JS `s.replace(/^p/, '')`: strip `p` when it is a leading
substring of `s`, otherwise return `s` unchanged. -/
def stripLeading (p s : String) : String :=
  if strStartsWith s p then ⟨s.data.drop p.data.length⟩ else s

/-- `normalizeHash` from `Swap.tsx` (lines 52-59): lowercase, then strip
`hash-`, then `contract-`, then `contract-package-`, in that order. -/
def normalizeHash (keyStr : String) : String :=
  if keyStr = "" then ""
  else
    stripLeading "contract-package-"
      (stripLeading "contract-" (stripLeading "hash-" (strToLower keyStr)))

/-- Hex-digit test used by the model of JS `parseInt(-, 16)`. -/
def isHexDigit (c : Char) : Bool :=
  (('0' ≤ c) && (c ≤ '9')) || (('a' ≤ c) && (c ≤ 'f')) || (('A' ≤ c) && (c ≤ 'F'))

/-- Numeric value of a hex digit (0 for non-digits; callers guard). -/
def hexVal (c : Char) : ℕ :=
  if ('0' ≤ c) && (c ≤ '9') then c.toNat - '0'.toNat
  else if ('a' ≤ c) && (c ≤ 'f') then c.toNat - 'a'.toNat + 10
  else if ('A' ≤ c) && (c ≤ 'F') then c.toNat - 'A'.toNat + 10
  else 0

/-- Strip a leading `0x`/`0X`, as JS `parseInt` does for radix 16. -/
def strip0x : List Char → List Char
  | '0' :: 'x' :: t => t
  | '0' :: 'X' :: t => t
  | t => t

/-- Fold hex digits into a number. -/
def hexFold (l : List Char) : ℕ :=
  l.foldl (fun acc c => 16 * acc + hexVal c) 0

/-- Model of JS `parseInt(s, 16)` on the short (1-2 character) chunks
`serializeKey` produces: optional sign, optional `0x`, then the longest
leading run of hex digits; `none` models `NaN`. -/
def jsParseIntHex (l : List Char) : Option ℤ :=
  match l with
  | '-' :: t =>
      let ds := (strip0x t).takeWhile isHexDigit
      if ds = [] then none else some (-(hexFold ds : ℤ))
  | '+' :: t =>
      let ds := (strip0x t).takeWhile isHexDigit
      if ds = [] then none else some (hexFold ds : ℤ)
  | t =>
      let ds := (strip0x t).takeWhile isHexDigit
      if ds = [] then none else some (hexFold ds : ℤ)

/-- A `Uint8Array` cell built from one chunk: `NaN` is stored as 0, other
values modulo 2^8 (JS `ToUint8`). -/
def byteOfChunk (chunk : List Char) : ℕ :=
  match jsParseIntHex chunk with
  | none => 0
  | some v => (v % 256).toNat

/-- Model of `clean.match(/.{1,2}/g)`: split into chunks of two characters,
with a final singleton when the length is odd. -/
def chunk2 : List Char → List (List Char)
  | [] => []
  | [a] => [[a]]
  | a :: b :: t => [a, b] :: chunk2 t

/-- The tag byte chosen by `serializeKey` (lines 62-71): 0 for
`account-hash-` keys, 1 otherwise. -/
def keyTag (keyStr : String) : ℕ :=
  if strStartsWith keyStr "account-hash-" then 0 else 1

/-- The remainder of the key after `serializeKey` strips its recognized
leading marker (`account-hash-`, `hash-`, or `contract-package-`). -/
def keyRemainder (keyStr : String) : String :=
  if strStartsWith keyStr "account-hash-" then ⟨keyStr.data.drop 13⟩
  else if strStartsWith keyStr "hash-" then ⟨keyStr.data.drop 5⟩
  else if strStartsWith keyStr "contract-package-" then ⟨keyStr.data.drop 17⟩
  else keyStr

/-- `serializeKey` from `Swap.tsx` (lines 61-77).  Returns the 33 cells of
the `Uint8Array`; `none` models a thrown exception: the non-null assertion
on `clean.match(...)` when the remainder is empty, and the `RangeError`
from `bytes.set(hashBytes, 1)` when more than 32 bytes are decoded. -/
def serializeKey (keyStr : String) : Option (List ℕ) :=
  let clean := keyRemainder keyStr
  let chunks := chunk2 clean.data
  if chunks = [] then none
  else
    let hashBytes := chunks.map byteOfChunk
    if 32 < hashBytes.length then none
    else some (keyTag keyStr :: hashBytes ++ List.replicate (32 - hashBytes.length) 0)

/-- `compareBytes` from `Swap.tsx` (lines 79-85): first index where the
arrays differ decides (as a signed difference), otherwise the length
difference. -/
def compareBytes : List ℕ → List ℕ → ℤ
  | x :: xs, y :: ys => if x ≠ y then (x : ℤ) - (y : ℤ) else compareBytes xs ys
  | xs, ys => (xs.length : ℤ) - (ys.length : ℤ)

/-- The fallback branch of `fetchReserves` (lines 145-150): when the
on-chain token lookup returned null, order the two selected tokens by
their serialized package-hash keys.  `none` models the exception path
(caught by `fetchReserves`, which then clears the pair info). -/
def fallbackOrdering (tokenIn tokenOut hashIn hashOut : String) :
    Option (String × String) :=
  match serializeKey hashIn, serializeKey hashOut with
  | some keyA, some keyB =>
      some (if compareBytes keyA keyB ≤ 0 then (tokenIn, tokenOut) else (tokenOut, tokenIn))
  | _, _ => none

set_option maxRecDepth 10000

theorem chunk2_length : ∀ l : List Char, (chunk2 l).length = (l.length + 1) / 2
  | [] => by simp [chunk2]
  | [_] => by simp [chunk2]
  | _ :: b :: t => by
      simp [chunk2, chunk2_length t]
      omega

theorem chunk2_ne_nil : ∀ l : List Char, l ≠ [] → chunk2 l ≠ []
  | [], h => absurd rfl h
  | [_], _ => by simp [chunk2]
  | _ :: _ :: _, _ => by simp [chunk2]

theorem compareBytes_nil_nil : compareBytes [] [] = 0 := rfl

theorem compareBytes_neg (a : List ℕ) : ∀ b, compareBytes a b = -compareBytes b a := by
  induction a with
  | nil =>
      intro b
      cases b with
      | nil => simp [compareBytes]
      | cons y ys => simp [compareBytes]
  | cons x xs ih =>
      intro b
      cases b with
      | nil => simp [compareBytes]
      | cons y ys =>
          by_cases hxy : x = y
          · simp [compareBytes, hxy, ih ys]
          · have hyx : y ≠ x := fun h => hxy h.symm
            simp [compareBytes, hxy, hyx]

theorem compareBytes_eq_zero_iff (a : List ℕ) : ∀ b, compareBytes a b = 0 ↔ a = b := by
  induction a with
  | nil =>
      intro b
      cases b with
      | nil => simp [compareBytes]
      | cons y ys => simp [compareBytes]; omega
  | cons x xs ih =>
      intro b
      cases b with
      | nil => simp [compareBytes]; omega
      | cons y ys =>
          by_cases hxy : x = y
          · simp [compareBytes, hxy, ih ys]
          · have : (x : ℤ) - (y : ℤ) ≠ 0 := by
              intro h
              exact hxy (by exact_mod_cast sub_eq_zero.mp h)
            simp [compareBytes, hxy, this]

/-- C1: when the on-chain pair token lookup fails, `fetchReserves` falls
back to ordering the two selected tokens by `compareBytes` over their
serialized package-hash keys; for tokens with distinct serialized keys the
resulting `(token0, token1)` assignment puts the lexicographically smaller
key first and is the same whichever of the two tokens the user selected as
input, so the fallback is deterministic and symmetric. -/
theorem fallbackOrdering_deterministic (A B hashA hashB : String) (kA kB : List ℕ)
    (hkA : serializeKey hashA = some kA) (hkB : serializeKey hashB = some kB)
    (hne : kA ≠ kB) :
    ∃ t0 t1, fallbackOrdering A B hashA hashB = some (t0, t1) ∧
      fallbackOrdering B A hashB hashA = some (t0, t1) ∧
      ((t0 = A ∧ t1 = B ∧ compareBytes kA kB ≤ 0) ∨
       (t0 = B ∧ t1 = A ∧ compareBytes kB kA ≤ 0)) := by
  have hc : compareBytes kA kB ≠ 0 := fun h => hne ((compareBytes_eq_zero_iff kA kB).mp h)
  have hswap : compareBytes kB kA = -compareBytes kA kB := by
    rw [compareBytes_neg kB kA]
  by_cases hle : compareBytes kA kB ≤ 0
  · have hBA : ¬ compareBytes kB kA ≤ 0 := by omega
    refine ⟨A, B, ?_, ?_, Or.inl ⟨rfl, rfl, hle⟩⟩
    · simp [fallbackOrdering, hkA, hkB, hle]
    · simp [fallbackOrdering, hkA, hkB, hBA]
  · have hBA : compareBytes kB kA ≤ 0 := by omega
    refine ⟨B, A, ?_, ?_, Or.inr ⟨rfl, rfl, hBA⟩⟩
    · simp [fallbackOrdering, hkA, hkB, hle]
    · simp [fallbackOrdering, hkA, hkB, hBA]

theorem fallbackOrdering_deterministic_witness :
    ∃ t0 t1, fallbackOrdering "WCSPR" "ECTO" "0a" "0b" = some (t0, t1) ∧
      fallbackOrdering "ECTO" "WCSPR" "0b" "0a" = some (t0, t1) ∧
      ((t0 = "WCSPR" ∧ t1 = "ECTO" ∧
          compareBytes (1 :: 10 :: List.replicate 31 0) (1 :: 11 :: List.replicate 31 0) ≤ 0) ∨
       (t0 = "ECTO" ∧ t1 = "WCSPR" ∧
          compareBytes (1 :: 11 :: List.replicate 31 0) (1 :: 10 :: List.replicate 31 0) ≤ 0)) :=
  fallbackOrdering_deterministic "WCSPR" "ECTO" "0a" "0b"
    (1 :: 10 :: List.replicate 31 0) (1 :: 11 :: List.replicate 31 0)
    (by decide) (by decide) (by decide)

/-- C5: evaluation of `normalizeHash` at a `contract-package-` key.  The
claim says such a key normalizes to the bare hash, but because the
`contract-` replacement runs before the `contract-package-` one (making
the latter dead code), the result keeps a `package-` residue. -/
theorem normalizeHash_contract_package_eval :
    normalizeHash "contract-package-abc" = "package-abc" ∧
    normalizeHash "contract-package-abc" ≠ "abc" := by decide

/-- C10 counterexample: a key whose stripped remainder is a nonempty hex
string of 66 characters makes `serializeKey` throw (the 33 decoded bytes
do not fit `bytes.set(hashBytes, 1)` on a 33-cell array), so it does not
return a 33-byte serialization as the claim states. -/
theorem serializeKey_long_hex_throws :
    keyRemainder (String.mk (List.replicate 66 'a')) ≠ "" ∧
    (∀ c ∈ (keyRemainder (String.mk (List.replicate 66 'a'))).data, isHexDigit c = true) ∧
    serializeKey (String.mk (List.replicate 66 'a')) = none := by decide

/-- C10 (amended): for every key whose recognized prefix is stripped to a
nonempty hex remainder of at most 64 characters, `serializeKey` returns
exactly 33 cells, the first being 0 for `account-hash-` keys and 1
otherwise, with the hex-decoded remainder written from cell 1 (zero
padding after it); in particular the non-null regex assertion does not
fire. -/
theorem serializeKey_shape (key : String)
    (h1 : keyRemainder key ≠ "")
    (_hhex : ∀ c ∈ (keyRemainder key).data, isHexDigit c = true)
    (h3 : (keyRemainder key).data.length ≤ 64) :
    ∃ bs, serializeKey key = some (keyTag key :: bs ++ List.replicate (32 - bs.length) 0) ∧
      bs = (chunk2 (keyRemainder key).data).map byteOfChunk ∧
      bs.length ≤ 32 ∧
      (keyTag key :: bs ++ List.replicate (32 - bs.length) 0).length = 33 ∧
      keyTag key = (if strStartsWith key "account-hash-" then 0 else 1) := by
  have hdata : (keyRemainder key).data ≠ [] := by
    intro h
    exact h1 (String.ext (show (keyRemainder key).data = "".data from h))
  have hchunks : chunk2 (keyRemainder key).data ≠ [] := chunk2_ne_nil _ hdata
  have hlen : ((chunk2 (keyRemainder key).data).map byteOfChunk).length ≤ 32 := by
    rw [List.length_map, chunk2_length]
    omega
  refine ⟨(chunk2 (keyRemainder key).data).map byteOfChunk, ?_, rfl, hlen, ?_, rfl⟩
  · simp only [serializeKey]
    rw [if_neg hchunks, if_neg (by omega)]
  · simp only [List.length_cons, List.length_append, List.length_replicate]
    omega

theorem serializeKey_shape_witness :
    ∃ bs, serializeKey "hash-0a" =
        some (keyTag "hash-0a" :: bs ++ List.replicate (32 - bs.length) 0) ∧
      bs = (chunk2 (keyRemainder "hash-0a").data).map byteOfChunk ∧
      bs.length ≤ 32 ∧
      (keyTag "hash-0a" :: bs ++ List.replicate (32 - bs.length) 0).length = 33 ∧
      keyTag "hash-0a" = (if strStartsWith "hash-0a" "account-hash-" then 0 else 1) :=
  serializeKey_shape "hash-0a" (by decide) (by decide) (by decide)

/-! ## Swap preview from `src/components/Swap.tsx` (lines 162-198)

JS `number` arithmetic is idealized as exact rational arithmetic; the
`toFixed(4)` renderings are modelled by rounding to four decimal places
(the value a later `parseFloat` of the rendered string recovers). -/

/-- Modelled from the spec: `dex.getAmountOut` lives in the DEX service,
which is not under `src/`; the spec describes it as "computing swap output
via the constant-product formula", i.e. the constant-product AMM output
`amountIn * reserveOut / (reserveIn + amountIn)` in integer (bigint)
arithmetic. -/
def getAmountOut (amountIn reserveIn reserveOut : ℕ) : ℕ :=
  amountIn * reserveOut / (reserveIn + amountIn)

/-- The pair state `fetchReserves` stores: reserves `r0`, `r1` and the
resolved symbols `token0`, `token1`. -/
structure PairInfo where
  r0 : ℕ
  r1 : ℕ
  token0 : String
  token1 : String

/-- The three preview values the effect computes (plus the intermediate
oriented reserves and raw output, which the claims talk about). -/
structure PreviewState where
  reserveIn : ℕ
  reserveOut : ℕ
  outputAmount : ℕ
  expectedOutput : ℚ
  priceImpact : ℚ
  minimumReceived : ℚ
deriving DecidableEq

/-- JS `x.toFixed(4)` read back as a number: round to 4 decimal places. -/
def toFix4 (x : ℚ) : ℚ :=
  (⌊x * 10000 + 1 / 2⌋ : ℚ) / 10000

/-- The body of the swap-preview effect (lines 171-194) for an active
preview: scale the input by `10^decIn`, orient the reserves by comparing
`tokenIn` with `pairInfo.token0`, apply `getAmountOut`, and derive the
displayed output, price impact and slippage-adjusted minimum. -/
def computePreview (tokenIn : String) (info : PairInfo) (amountIn : ℚ)
    (decIn decOut : ℕ) (slippage : ℚ) : PreviewState :=
  let amountInBigInt : ℕ := (⌊amountIn * 10 ^ decIn⌋).toNat
  let reserveIn := if tokenIn = info.token0 then info.r0 else info.r1
  let reserveOut := if tokenIn = info.token0 then info.r1 else info.r0
  let outputAmount := getAmountOut amountInBigInt reserveIn reserveOut
  let outputFormatted := toFix4 ((outputAmount : ℚ) / 10 ^ decOut)
  let currentPrice : ℚ := (reserveOut : ℚ) / (reserveIn : ℚ)
  let expectedPrice : ℚ := (outputAmount : ℚ) / (amountInBigInt : ℚ)
  let impact := ((currentPrice - expectedPrice) / currentPrice) * 100
  let slippageMultiplier := 1 - slippage / 100
  let minReceived := toFix4 (outputFormatted * slippageMultiplier)
  ⟨reserveIn, reserveOut, outputAmount, outputFormatted, impact, minReceived⟩

/-- The guard branch (line 164-169): no pair or non-positive input resets
the preview to zeros. -/
def zeroPreview : PreviewState := ⟨0, 0, 0, 0, 0, 0⟩

/-- The whole preview effect, guard included. -/
def swapPreviewState (tokenIn : String) (pairInfo : Option PairInfo) (amountIn : ℚ)
    (decIn decOut : ℕ) (slippage : ℚ) : PreviewState :=
  match pairInfo with
  | none => zeroPreview
  | some info =>
      if amountIn ≤ 0 then zeroPreview
      else computePreview tokenIn info amountIn decIn decOut slippage

/-- `handleSwap` line 218: the minimum-output deploy argument is the
displayed minimum scaled by `10^decOut` and floored. -/
def handleSwapMinOutArg (minimumReceived : ℚ) (decOut : ℕ) : ℤ :=
  ⌊minimumReceived * 10 ^ decOut⌋

/-- C2: with a resolved pair and positive input, the input reserve is `r0`
and the output reserve `r1` exactly when `tokenIn = token0` (reversed
otherwise), and the raw expected output is `getAmountOut` applied to the
decimal-scaled input amount and these oriented reserves. -/
theorem swapPreview_oriented_reserves (tokenIn : String) (info : PairInfo)
    (amountIn : ℚ) (decIn decOut : ℕ) (slippage : ℚ) (ha : 0 < amountIn) :
    (tokenIn = info.token0 →
      (swapPreviewState tokenIn (some info) amountIn decIn decOut slippage).reserveIn = info.r0 ∧
      (swapPreviewState tokenIn (some info) amountIn decIn decOut slippage).reserveOut = info.r1) ∧
    (tokenIn ≠ info.token0 →
      (swapPreviewState tokenIn (some info) amountIn decIn decOut slippage).reserveIn = info.r1 ∧
      (swapPreviewState tokenIn (some info) amountIn decIn decOut slippage).reserveOut = info.r0) ∧
    (swapPreviewState tokenIn (some info) amountIn decIn decOut slippage).outputAmount =
      getAmountOut ((⌊amountIn * 10 ^ decIn⌋).toNat)
        (swapPreviewState tokenIn (some info) amountIn decIn decOut slippage).reserveIn
        (swapPreviewState tokenIn (some info) amountIn decIn decOut slippage).reserveOut := by
  have hguard : ¬ amountIn ≤ 0 := not_le.mpr ha
  by_cases h0 : tokenIn = info.token0
  · refine ⟨fun _ => ⟨?_, ?_⟩, fun hc => absurd h0 hc, ?_⟩ <;>
      simp [swapPreviewState, computePreview, hguard, h0]
  · refine ⟨fun hc => absurd hc h0, fun _ => ⟨?_, ?_⟩, ?_⟩ <;>
      simp [swapPreviewState, computePreview, hguard, h0]

theorem swapPreview_oriented_reserves_witness :
    (swapPreviewState "WCSPR" (some ⟨100, 200, "WCSPR", "ECTO"⟩) 1 0 0 1).outputAmount =
      getAmountOut ((⌊(1 : ℚ) * 10 ^ 0⌋).toNat)
        (swapPreviewState "WCSPR" (some ⟨100, 200, "WCSPR", "ECTO"⟩) 1 0 0 1).reserveIn
        (swapPreviewState "WCSPR" (some ⟨100, 200, "WCSPR", "ECTO"⟩) 1 0 0 1).reserveOut :=
  (swapPreview_oriented_reserves "WCSPR" ⟨100, 200, "WCSPR", "ECTO"⟩ 1 0 0 1
    (by norm_num)).2.2

theorem priceImpact_algebra (rIn rOut o a : ℚ) (h1 : rIn ≠ 0) (h2 : rOut ≠ 0)
    (h3 : a ≠ 0) :
    ((rOut / rIn - o / a) / (rOut / rIn)) * 100 = 100 * (1 - (o * rIn) / (a * rOut)) := by
  field_simp
  ring


theorem swapPreviewState_pos (tokenIn : String) (info : PairInfo) (amountIn : ℚ)
    (decIn decOut : ℕ) (slippage : ℚ) (ha : 0 < amountIn) :
    swapPreviewState tokenIn (some info) amountIn decIn decOut slippage =
      computePreview tokenIn info amountIn decIn decOut slippage := by
  simp [swapPreviewState, not_le.mpr ha]

theorem computePreview_reserveIn (tokenIn : String) (info : PairInfo) (amountIn : ℚ)
    (decIn decOut : ℕ) (slippage : ℚ) :
    (computePreview tokenIn info amountIn decIn decOut slippage).reserveIn =
      if tokenIn = info.token0 then info.r0 else info.r1 := rfl

theorem computePreview_reserveOut (tokenIn : String) (info : PairInfo) (amountIn : ℚ)
    (decIn decOut : ℕ) (slippage : ℚ) :
    (computePreview tokenIn info amountIn decIn decOut slippage).reserveOut =
      if tokenIn = info.token0 then info.r1 else info.r0 := rfl

theorem computePreview_outputAmount (tokenIn : String) (info : PairInfo) (amountIn : ℚ)
    (decIn decOut : ℕ) (slippage : ℚ) :
    (computePreview tokenIn info amountIn decIn decOut slippage).outputAmount =
      getAmountOut ((⌊amountIn * 10 ^ decIn⌋).toNat)
        (computePreview tokenIn info amountIn decIn decOut slippage).reserveIn
        (computePreview tokenIn info amountIn decIn decOut slippage).reserveOut := rfl

theorem computePreview_priceImpact (tokenIn : String) (info : PairInfo) (amountIn : ℚ)
    (decIn decOut : ℕ) (slippage : ℚ) :
    (computePreview tokenIn info amountIn decIn decOut slippage).priceImpact =
      ((((computePreview tokenIn info amountIn decIn decOut slippage).reserveOut : ℚ) /
          ((computePreview tokenIn info amountIn decIn decOut slippage).reserveIn : ℚ) -
        ((computePreview tokenIn info amountIn decIn decOut slippage).outputAmount : ℚ) /
          (((⌊amountIn * 10 ^ decIn⌋).toNat : ℕ) : ℚ)) /
        (((computePreview tokenIn info amountIn decIn decOut slippage).reserveOut : ℚ) /
          ((computePreview tokenIn info amountIn decIn decOut slippage).reserveIn : ℚ))) * 100 := rfl

theorem computePreview_expectedOutput (tokenIn : String) (info : PairInfo) (amountIn : ℚ)
    (decIn decOut : ℕ) (slippage : ℚ) :
    (computePreview tokenIn info amountIn decIn decOut slippage).expectedOutput =
      toFix4 (((computePreview tokenIn info amountIn decIn decOut slippage).outputAmount : ℚ) /
        10 ^ decOut) := rfl

theorem computePreview_minimumReceived (tokenIn : String) (info : PairInfo) (amountIn : ℚ)
    (decIn decOut : ℕ) (slippage : ℚ) :
    (computePreview tokenIn info amountIn decIn decOut slippage).minimumReceived =
      toFix4 ((computePreview tokenIn info amountIn decIn decOut slippage).expectedOutput *
        (1 - slippage / 100)) := rfl

/-- C3: the price impact the preview stores is the code's expression
`((reserveOut/reserveIn) - (output/input)) / (reserveOut/reserveIn) * 100`
over the oriented reserves, and for positive reserves and positive scaled
input this equals `100 * (1 - (output * reserveIn) / (input * reserveOut))`. -/
theorem swapPreview_price_impact (tokenIn : String) (info : PairInfo)
    (amountIn : ℚ) (decIn decOut : ℕ) (slippage : ℚ) (ha : 0 < amountIn)
    (hr0 : 0 < info.r0) (hr1 : 0 < info.r1)
    (ham : 0 < (⌊amountIn * 10 ^ decIn⌋).toNat) :
    (swapPreviewState tokenIn (some info) amountIn decIn decOut slippage).priceImpact =
      ((((swapPreviewState tokenIn (some info) amountIn decIn decOut slippage).reserveOut : ℚ) /
          ((swapPreviewState tokenIn (some info) amountIn decIn decOut slippage).reserveIn : ℚ) -
        ((swapPreviewState tokenIn (some info) amountIn decIn decOut slippage).outputAmount : ℚ) /
          (((⌊amountIn * 10 ^ decIn⌋).toNat : ℕ) : ℚ)) /
        (((swapPreviewState tokenIn (some info) amountIn decIn decOut slippage).reserveOut : ℚ) /
          ((swapPreviewState tokenIn (some info) amountIn decIn decOut slippage).reserveIn : ℚ))) * 100 ∧
    (swapPreviewState tokenIn (some info) amountIn decIn decOut slippage).priceImpact =
      100 * (1 -
        (((swapPreviewState tokenIn (some info) amountIn decIn decOut slippage).outputAmount : ℚ) *
          ((swapPreviewState tokenIn (some info) amountIn decIn decOut slippage).reserveIn : ℚ)) /
        ((((⌊amountIn * 10 ^ decIn⌋).toNat : ℕ) : ℚ) *
          ((swapPreviewState tokenIn (some info) amountIn decIn decOut slippage).reserveOut : ℚ))) := by
  rw [swapPreviewState_pos tokenIn info amountIn decIn decOut slippage ha]
  have hrIn : 0 < (computePreview tokenIn info amountIn decIn decOut slippage).reserveIn := by
    rw [computePreview_reserveIn]
    by_cases h0 : tokenIn = info.token0 <;> simp [h0, hr0, hr1]
  have hrOut : 0 < (computePreview tokenIn info amountIn decIn decOut slippage).reserveOut := by
    rw [computePreview_reserveOut]
    by_cases h0 : tokenIn = info.token0 <;> simp [h0, hr0, hr1]
  refine ⟨computePreview_priceImpact tokenIn info amountIn decIn decOut slippage, ?_⟩
  rw [computePreview_priceImpact tokenIn info amountIn decIn decOut slippage]
  exact priceImpact_algebra _ _ _ _
    (by exact_mod_cast hrIn.ne') (by exact_mod_cast hrOut.ne') (by exact_mod_cast ham.ne')

theorem swapPreview_price_impact_witness :
    (swapPreviewState "WCSPR" (some ⟨100, 200, "WCSPR", "ECTO"⟩) 1 0 0 1).priceImpact =
      100 * (1 -
        (((swapPreviewState "WCSPR" (some ⟨100, 200, "WCSPR", "ECTO"⟩) 1 0 0 1).outputAmount : ℚ) *
          ((swapPreviewState "WCSPR" (some ⟨100, 200, "WCSPR", "ECTO"⟩) 1 0 0 1).reserveIn : ℚ)) /
        ((((⌊(1 : ℚ) * 10 ^ 0⌋).toNat : ℕ) : ℚ) *
          ((swapPreviewState "WCSPR" (some ⟨100, 200, "WCSPR", "ECTO"⟩) 1 0 0 1).reserveOut : ℚ))) :=
  (swapPreview_price_impact "WCSPR" ⟨100, 200, "WCSPR", "ECTO"⟩ 1 0 0 1
    (by norm_num) (by norm_num) (by norm_num) (by norm_num)).2

/-- C4: the stored minimum received is the (4-decimal-rendered) expected
output scaled by `1 - slippage/100` and re-rendered to 4 decimals, and the
minimum-output argument `handleSwap` passes to the swap deploy is exactly
this value scaled by `10^decOut` and floored to an integer. -/
theorem swapPreview_minimum_received (tokenIn : String) (info : PairInfo)
    (amountIn : ℚ) (decIn decOut : ℕ) (slippage : ℚ) (ha : 0 < amountIn) :
    (swapPreviewState tokenIn (some info) amountIn decIn decOut slippage).minimumReceived =
      toFix4 ((swapPreviewState tokenIn (some info) amountIn decIn decOut slippage).expectedOutput *
        (1 - slippage / 100)) ∧
    handleSwapMinOutArg
        (swapPreviewState tokenIn (some info) amountIn decIn decOut slippage).minimumReceived decOut =
      ⌊toFix4 ((swapPreviewState tokenIn (some info) amountIn decIn decOut slippage).expectedOutput *
          (1 - slippage / 100)) * 10 ^ decOut⌋ := by
  rw [swapPreviewState_pos tokenIn info amountIn decIn decOut slippage ha]
  refine ⟨computePreview_minimumReceived tokenIn info amountIn decIn decOut slippage, ?_⟩
  rw [handleSwapMinOutArg, computePreview_minimumReceived tokenIn info amountIn decIn decOut slippage]

theorem swapPreview_minimum_received_witness :
    (swapPreviewState "WCSPR" (some ⟨100, 200, "WCSPR", "ECTO"⟩) 1 0 0 1).minimumReceived =
      toFix4 ((swapPreviewState "WCSPR" (some ⟨100, 200, "WCSPR", "ECTO"⟩) 1 0 0 1).expectedOutput *
        (1 - (1 : ℚ) / 100)) :=
  (swapPreview_minimum_received "WCSPR" ⟨100, 200, "WCSPR", "ECTO"⟩ 1 0 0 1 (by norm_num)).1

/-! ## The RPC relay from `api/rpc.ts` -/

/-- The response bodies the relay can produce: the two error objects it
builds itself, or the upstream response text passed through. -/
inductive RpcBody where
  | methodNotAllowed
  | nodeAddressMissing
  | upstreamText (s : String)
deriving DecidableEq

/-- What one invocation of the handler does: the response status and body,
plus the upstream call it made, if any (URL and forwarded payload). -/
structure RpcOutcome (J : Type) where
  status : ℕ
  body : RpcBody
  contacted : Option (String × J)
deriving DecidableEq

/-- JS truthiness of `string | undefined`. -/
def isTruthyStr : Option String → Bool
  | none => false
  | some s => s ≠ ""

/-- `process.env.NODE_ADDRESS || process.env.VITE_NODE_ADDRESS` followed by
the `!nodeAddress` guard: the first truthy (defined and nonempty) value,
`none` when both are falsy. -/
def resolveNodeAddress (envNode envViteNode : Option String) : Option String :=
  let v := if isTruthyStr envNode then envNode else envViteNode
  if isTruthyStr v then v else none

/-- Line 15: append `/rpc` unless the configured address already ends in it. -/
def mkRpcUrl (nodeAddress : String) : String :=
  if nodeAddress.endsWith "/rpc" then nodeAddress else nodeAddress ++ "/rpc"

/-- Line 17: a string body is parsed as JSON, any other body is used as is. -/
def jsPayload {J : Type} (parse : String → J) : String ⊕ J → J
  | .inl s => parse s
  | .inr j => j

/-- The relay `handler` from `api/rpc.ts` (lines 3-29), with the JSON value
type `J`, the JSON parser and the upstream `fetch` left abstract.  The
upstream function returns the response status and text. -/
def rpcHandler {J : Type} (method : String) (envNode envViteNode : Option String)
    (body : String ⊕ J) (parse : String → J)
    (upstream : String → J → ℕ × String) : RpcOutcome J :=
  if method ≠ "POST" then ⟨405, .methodNotAllowed, none⟩
  else
    match resolveNodeAddress envNode envViteNode with
    | none => ⟨500, .nodeAddressMissing, none⟩
    | some nodeAddress =>
        let rpcUrl := mkRpcUrl nodeAddress
        let payload := jsPayload parse body
        let u := upstream rpcUrl payload
        ⟨u.1, .upstreamText u.2, some (rpcUrl, payload)⟩

/-- C6: a non-POST request gets status 405 with no upstream contact; a POST
with no configured node address gets status 500 with no upstream contact;
otherwise the parsed body is forwarded unchanged to the node's `/rpc`
endpoint (`/rpc` appended only when not already the suffix) and the
upstream status and text are returned unchanged. -/
theorem rpcHandler_relay {J : Type} (method : String) (envNode envViteNode : Option String)
    (body : String ⊕ J) (parse : String → J) (upstream : String → J → ℕ × String) :
    (method ≠ "POST" →
      rpcHandler method envNode envViteNode body parse upstream =
        ⟨405, .methodNotAllowed, none⟩) ∧
    (method = "POST" → resolveNodeAddress envNode envViteNode = none →
      rpcHandler method envNode envViteNode body parse upstream =
        ⟨500, .nodeAddressMissing, none⟩) ∧
    (∀ addr, method = "POST" → resolveNodeAddress envNode envViteNode = some addr →
      rpcHandler method envNode envViteNode body parse upstream =
        ⟨(upstream (mkRpcUrl addr) (jsPayload parse body)).1,
          .upstreamText (upstream (mkRpcUrl addr) (jsPayload parse body)).2,
          some (mkRpcUrl addr, jsPayload parse body)⟩ ∧
      (addr.endsWith "/rpc" = true → mkRpcUrl addr = addr) ∧
      (addr.endsWith "/rpc" = false → mkRpcUrl addr = addr ++ "/rpc")) := by
  refine ⟨fun hm => by simp [rpcHandler, hm], fun hm hn => by simp [rpcHandler, hm, hn],
    fun addr hm hn => ⟨by simp [rpcHandler, hm, hn], fun he => by simp [mkRpcUrl, he],
      fun he => by simp [mkRpcUrl, he]⟩⟩

theorem rpcHandler_relay_witness :
    rpcHandler "GET" (some "http://node:7777") none ((Sum.inr 0 : String ⊕ ℕ))
        (fun _ => 0) (fun _ _ => (200, "ok")) =
      ⟨405, .methodNotAllowed, none⟩ :=
  (rpcHandler_relay "GET" (some "http://node:7777") none (Sum.inr 0)
    (fun _ => 0) (fun _ _ => (200, "ok"))).1 (by decide)

/-! ## `handleSwap` failure handling from `src/components/Swap.tsx` (lines 200-287)

The wallet and network effects are abstracted as `Except` oracles
(construction of the deploy, signing, broadcasting); the function below
records the observable effect sequence of one call, exceptions aborting
the `try` block exactly where they are raised. -/

/-- Observable effects of `handleSwap`. -/
inductive Ev where
  | setLoading (b : Bool)
  | showPendingToast
  | removePendingToast
  | showErrorToast
  | showSuccessToast (txHash : String)
  | broadcastAttempt
deriving DecidableEq

/-- The effect trace of one `handleSwap` call.  `construct` models deploy
construction (lines 215-229), `sign` the wallet signature request (line
236), `send` the broadcast (line 254); an `Except.error` at any stage
jumps to the catch block (lines 265-283), and the finally block (line 285)
always resets loading. -/
def handleSwapRun (walletConnected amountPositive : Bool)
    (construct : Except String Unit) (sign : Except String String)
    (send : Except String String) : List Ev :=
  if ¬walletConnected then [.showErrorToast]
  else if ¬amountPositive then [.showErrorToast]
  else
    .setLoading true ::
      (match construct with
       | .error _ => [.showErrorToast, .setLoading false]
       | .ok _ =>
           .showPendingToast ::
             (match sign with
              | .error _ => [.removePendingToast, .showErrorToast, .setLoading false]
              | .ok _ =>
                  .removePendingToast :: .showPendingToast :: .broadcastAttempt ::
                    (match send with
                     | .error _ => [.removePendingToast, .showErrorToast, .setLoading false]
                     | .ok txHash => [.removePendingToast, .showSuccessToast txHash,
                         .setLoading false])))

/-- Is any event in the list a success toast? -/
def hasSuccessToast : List Ev → Bool
  | [] => false
  | .showSuccessToast _ :: _ => true
  | _ :: t => hasSuccessToast t

/-- Is any event in the list a broadcast attempt? -/
def hasBroadcast : List Ev → Bool
  | [] => false
  | .broadcastAttempt :: _ => true
  | _ :: t => hasBroadcast t

/-- Does a broadcast attempt occur after an error toast? -/
def broadcastAfterError : List Ev → Bool
  | [] => false
  | .showErrorToast :: t => hasBroadcast t || broadcastAfterError t
  | _ :: t => broadcastAfterError t

/-- C7: whenever any stage inside `handleSwap`'s try block fails (deploy
construction, signing, or broadcasting), the trace shows exactly one error
toast, every pending toast shown has been removed, loading is reset to
false as the last effect, no success toast appears, and no broadcast is
attempted after the failure. -/
theorem handleSwap_failure_handling (construct : Except String Unit)
    (sign : Except String String) (send : Except String String)
    (hfail : construct.isOk = false ∨ sign.isOk = false ∨ send.isOk = false) :
    (handleSwapRun true true construct sign send).count .showErrorToast = 1 ∧
    hasSuccessToast (handleSwapRun true true construct sign send) = false ∧
    (handleSwapRun true true construct sign send).count .removePendingToast =
      (handleSwapRun true true construct sign send).count .showPendingToast ∧
    (handleSwapRun true true construct sign send).getLast? = some (.setLoading false) ∧
    broadcastAfterError (handleSwapRun true true construct sign send) = false := by
  rcases construct with ec | uc
  · refine ⟨?_, ?_, ?_, ?_, ?_⟩ <;> rfl
  · rcases sign with es | ss
    · refine ⟨?_, ?_, ?_, ?_, ?_⟩ <;> rfl
    · rcases send with ed | sd
      · refine ⟨?_, ?_, ?_, ?_, ?_⟩ <;> rfl
      · simp [Except.isOk, Except.toBool] at hfail

theorem handleSwap_failure_handling_witness :
    (handleSwapRun true true (Except.ok ()) (Except.error "User rejected")
        (Except.ok "deadbeef")).count .showErrorToast = 1 ∧
    hasSuccessToast (handleSwapRun true true (Except.ok ()) (Except.error "User rejected")
        (Except.ok "deadbeef")) = false ∧
    (handleSwapRun true true (Except.ok ()) (Except.error "User rejected")
        (Except.ok "deadbeef")).count .removePendingToast =
      (handleSwapRun true true (Except.ok ()) (Except.error "User rejected")
        (Except.ok "deadbeef")).count .showPendingToast ∧
    (handleSwapRun true true (Except.ok ()) (Except.error "User rejected")
        (Except.ok "deadbeef")).getLast? = some (.setLoading false) ∧
    broadcastAfterError (handleSwapRun true true (Except.ok ()) (Except.error "User rejected")
        (Except.ok "deadbeef")) = false :=
  handleSwap_failure_handling (Except.ok ()) (Except.error "User rejected")
    (Except.ok "deadbeef") (by decide)

/-! ## `handleStake` from the Staking component (`src/unnamed/part_000`)

The entered amount is modelled as the value JS `Number` produces from the
input string: `some q` for a finite number, `none` for `NaN`/infinities. -/

/-- `toRawAmount` (lines 16-21): 0 for non-finite or non-positive values,
otherwise the floor of the amount scaled by `10^decimals`. -/
def toRawAmount (value : Option ℚ) (decimals : ℕ) : ℤ :=
  match value with
  | none => 0
  | some num => if num ≤ 0 then 0 else ⌊num * 10 ^ decimals⌋

/-- JS `Number(value) < bound`: false for `NaN` (and for `Infinity`, both
of which `none` stands for here, since neither is below a finite bound the
code uses). -/
def jsNumLt (value : Option ℚ) (bound : ℚ) : Bool :=
  match value with
  | none => false
  | some q => q < bound

/-- The result of one `handleStake` call: either an early-exit error toast
with no deploy work, or a stake deploy built for the staking-manager hash
with the raw amount and handed to signing/broadcast. -/
inductive StakeOutcome where
  | errorToast
  | deploySent (stakingManagerHash : String) (rawAmount : ℤ)
deriving DecidableEq

/-- `handleStake` (lines 76-108): wallet guard, `ensureConfig` guard on the
staking-manager hash (falsy when the env vars are missing), positivity
guard on the 9-decimal raw conversion, and the 100-CSPR minimum; only then
is the stake deploy constructed and sent. -/
def handleStakeRun (walletConnected : Bool) (stakingManagerHash : String)
    (csprAmount : Option ℚ) : StakeOutcome :=
  if ¬walletConnected then .errorToast
  else if stakingManagerHash = "" then .errorToast
  else
    let raw := toRawAmount csprAmount 9
    if raw ≤ 0 then .errorToast
    else if jsNumLt csprAmount 100 then .errorToast
    else .deploySent stakingManagerHash raw

/-- C8: a stake deploy is constructed and sent exactly when the wallet is
connected, the staking-manager hash is configured, the 9-decimal raw
conversion is positive and the parsed amount is at least 100; in every
other case the call exits with an error toast and no deploy. -/
theorem handleStake_guards (walletConnected : Bool) (stakingManagerHash : String)
    (csprAmount : Option ℚ) :
    ((walletConnected = true ∧ stakingManagerHash ≠ "" ∧ 0 < toRawAmount csprAmount 9 ∧
        (∃ q, csprAmount = some q ∧ 100 ≤ q)) →
      handleStakeRun walletConnected stakingManagerHash csprAmount =
        .deploySent stakingManagerHash (toRawAmount csprAmount 9)) ∧
    (¬(walletConnected = true ∧ stakingManagerHash ≠ "" ∧ 0 < toRawAmount csprAmount 9 ∧
        (∃ q, csprAmount = some q ∧ 100 ≤ q)) →
      handleStakeRun walletConnected stakingManagerHash csprAmount = .errorToast) := by
  constructor
  · rintro ⟨hw, hh, hraw, q, hq, hq100⟩
    have hlt : jsNumLt csprAmount 100 = false := by
      rw [hq]
      simp [jsNumLt, not_lt.mpr hq100]
    simp [handleStakeRun, hw, hh, not_le.mpr hraw, hlt]
  · intro hP
    by_cases hw : walletConnected
    · by_cases hh : stakingManagerHash = ""
      · simp [handleStakeRun, hw, hh]
      · by_cases hraw : toRawAmount csprAmount 9 ≤ 0
        · simp [handleStakeRun, hw, hh, hraw]
        · by_cases hlt : jsNumLt csprAmount 100
          · simp [handleStakeRun, hw, hh, hraw, hlt]
          · exfalso
            apply hP
            refine ⟨by simpa using hw, hh, by omega, ?_⟩
            rcases hc : csprAmount with _ | q
            · rw [hc] at hraw
              simp [toRawAmount] at hraw
            · refine ⟨q, rfl, ?_⟩
              rw [hc] at hlt
              simpa [jsNumLt] using hlt
    · simp [handleStakeRun, hw]

theorem handleStake_guards_witness :
    handleStakeRun true "hash-1234" (some 250) =
      .deploySent "hash-1234" (toRawAmount (some 250) 9) ∧
    handleStakeRun true "hash-1234" (some 50) = .errorToast :=
  ⟨(handleStake_guards true "hash-1234" (some 250)).1
      ⟨rfl, by decide, by norm_num [toRawAmount], ⟨250, rfl, by norm_num⟩⟩,
    (handleStake_guards true "hash-1234" (some 50)).2
      (by
        rintro ⟨-, -, -, q, hq, hq100⟩
        rw [Option.some_inj] at hq
        rw [← hq] at hq100
        norm_num at hq100)⟩

/-! ## `formatTokenBalance` from `src/App.tsx` (lines 22-30)

The bigint's decimal string is modelled as its list of decimal digits
(most significant first), produced by a fuel-based structurally recursive
renderer so that everything evaluates in the kernel. -/

/-- Decimal digits of `n`, most significant first, via explicit fuel. -/
def decDigitsCore : ℕ → ℕ → List ℕ
  | 0, _ => []
  | fuel + 1, n => if n < 10 then [n] else decDigitsCore fuel (n / 10) ++ [n % 10]

/-- The digits of JS `value.toString()` for a nonnegative bigint: decimal,
most significant first, `[0]` for zero, no leading zeros. -/
def decDigits (n : ℕ) : List ℕ := decDigitsCore (n + 1) n

/-- Render a digit list back to the string the component displays. -/
def digitsToString (l : List ℕ) : String := ⟨l.map Nat.digitChar⟩

/-- JS `raw.padStart(n, '0')` on a digit list. -/
def padStartZeros (l : List ℕ) (n : ℕ) : List ℕ := List.replicate (n - l.length) 0 ++ l

/-- JS `fraction.replace(/0+$/, '')`: drop trailing zero digits. -/
def stripTrailingZeros (l : List ℕ) : List ℕ := (l.reverse.dropWhile (fun x => x == 0)).reverse

/-- `formatTokenBalance` from `App.tsx` (lines 22-30): for positive
`decimals`, left-pad the digit string to `decimals + 1`, split whole and
fractional parts with `slice`, strip the fraction's trailing zeros, then
truncate it to `precision` digits; drop the point when the fraction is
empty.  Non-positive `decimals` returns the raw digit string. -/
def formatTokenBalance (value : ℕ) (decimals precision : ℤ) : String :=
  let raw := decDigits value
  if decimals ≤ 0 then digitsToString raw
  else
    let d := decimals.toNat
    let padded := padStartZeros raw (d + 1)
    let whole := padded.take (padded.length - d)
    let fraction0 := padded.drop (padded.length - d)
    let fraction1 := stripTrailingZeros fraction0
    let fraction :=
      if 0 ≤ precision ∧ precision < (fraction1.length : ℤ) then fraction1.take precision.toNat
      else fraction1
    if fraction.length ≠ 0 then digitsToString whole ++ "." ++ digitsToString fraction
    else digitsToString whole

/-- The fractional digits the amended C9 claim predicts: the digits of
`v mod 10^d` left-padded to `d` places, trailing zeros stripped first and
the result then truncated to 4 digits. -/
def formatSpecFraction (v d : ℕ) : List ℕ :=
  let f := stripTrailingZeros (padStartZeros (decDigits (v % 10 ^ d)) d)
  if 4 < f.length then f.take 4 else f

theorem decDigitsCore_irrel : ∀ f g n, n < f → n < g → decDigitsCore f n = decDigitsCore g n := by
  intro f
  induction f with
  | zero => intro g n h; omega
  | succ f ih =>
      intro g n hf hg
      cases g with
      | zero => omega
      | succ g =>
          simp only [decDigitsCore]
          by_cases h10 : n < 10
          · simp [h10]
          · have hdiv : n / 10 < n := Nat.div_lt_self (by omega) (by omega)
            simp only [h10, if_false]
            rw [ih g (n / 10) (by omega) (by omega)]

theorem decDigits_def (n : ℕ) :
    decDigits n = if n < 10 then [n] else decDigits (n / 10) ++ [n % 10] := by
  show decDigitsCore (n + 1) n = _
  simp only [decDigitsCore]
  by_cases h10 : n < 10
  · simp [h10]
  · have hdiv : n / 10 < n := Nat.div_lt_self (by omega) (by omega)
    simp only [h10, if_false]
    rw [decDigitsCore_irrel n (n / 10 + 1) (n / 10) (by omega) (by omega)]
    rfl

theorem decDigits_lt_ten {n : ℕ} (h : n < 10) : decDigits n = [n] := by
  rw [decDigits_def]; simp [h]

theorem decDigits_length_pos (n : ℕ) : 1 ≤ (decDigits n).length := by
  rw [decDigits_def]
  by_cases h10 : n < 10 <;> simp [h10]

theorem decDigits_length_le : ∀ d, 1 ≤ d → ∀ n, n < 10 ^ d → (decDigits n).length ≤ d := by
  intro d hd
  induction d, hd using Nat.le_induction with
  | base =>
      intro n h
      rw [decDigits_lt_ten (by simpa using h)]
      simp
  | succ d hd ih =>
      intro n h
      by_cases h10 : n < 10
      · rw [decDigits_lt_ten h10]; simp
      · rw [decDigits_def]
        simp only [h10, if_false, List.length_append, List.length_cons, List.length_nil]
        have hdiv : n / 10 < 10 ^ d := by
          rw [Nat.div_lt_iff_lt_mul (by norm_num)]
          calc n < 10 ^ (d + 1) := h
          _ = 10 ^ d * 10 := by ring
        have := ih (n / 10) hdiv
        omega

theorem padStartZeros_length (l : List ℕ) (n : ℕ) (h : l.length ≤ n) :
    (padStartZeros l n).length = n := by
  simp [padStartZeros]
  omega

theorem padStartZeros_of_ge (l : List ℕ) (n : ℕ) (h : n ≤ l.length) :
    padStartZeros l n = l := by
  simp [padStartZeros, Nat.sub_eq_zero_of_le h]

theorem padStart_frac_step : ∀ d, 1 ≤ d → ∀ b, b < 10 ^ (d + 1) →
    padStartZeros (decDigits b) (d + 1) =
      padStartZeros (decDigits (b / 10)) d ++ [b % 10] := by
  intro d hd b hb
  by_cases h10 : b < 10
  · rw [decDigits_lt_ten h10, Nat.div_eq_of_lt h10, decDigits_lt_ten (show (0:ℕ) < 10 by norm_num),
      Nat.mod_eq_of_lt h10]
    show List.replicate (d + 1 - 1) 0 ++ [b] = (List.replicate (d - 1) 0 ++ [0]) ++ [b]
    rw [← List.replicate_succ', show d - 1 + 1 = d + 1 - 1 by omega]
  · rw [decDigits_def b]
    simp only [h10, if_false]
    have hdiv : b / 10 < 10 ^ d := by
      rw [Nat.div_lt_iff_lt_mul (by norm_num)]
      calc b < 10 ^ (d + 1) := hb
      _ = 10 ^ d * 10 := by ring
    have hlen : (decDigits (b / 10)).length ≤ d := decDigits_length_le d hd _ hdiv
    simp only [padStartZeros, List.length_append, List.length_cons, List.length_nil]
    rw [show d + 1 - ((decDigits (b / 10)).length + (0 + 1)) = d - (decDigits (b / 10)).length by
          omega]
    simp [List.append_assoc]

theorem decDigits_mul_add : ∀ d, 1 ≤ d → ∀ a b, 0 < a → b < 10 ^ d →
    decDigits (a * 10 ^ d + b) = decDigits a ++ padStartZeros (decDigits b) d := by
  intro d hd
  induction d, hd using Nat.le_induction with
  | base =>
      intro a b ha hb
      have hge : ¬ a * 10 ^ 1 + b < 10 := by
        have : 10 ≤ a * 10 := by omega
        simp only [pow_one]
        omega
      rw [decDigits_def]
      simp only [hge, if_false]
      have hdiv : (a * 10 ^ 1 + b) / 10 = a := by
        rw [pow_one, mul_comm, Nat.mul_add_div (by norm_num)]
        simp [Nat.div_eq_of_lt (by simpa using hb)]
      have hmod : (a * 10 ^ 1 + b) % 10 = b := by
        rw [pow_one, add_comm, Nat.add_mul_mod_self_right]
        exact Nat.mod_eq_of_lt (by simpa using hb)
      rw [hdiv, hmod, decDigits_lt_ten (show b < 10 by simpa using hb)]
      rfl
  | succ d hd ih =>
      intro a b ha hb
      have hge : ¬ a * 10 ^ (d + 1) + b < 10 := by
        have h1 : 10 ≤ 10 ^ (d + 1) := by
          calc (10:ℕ) = 10 ^ 1 := (pow_one 10).symm
          _ ≤ 10 ^ (d + 1) := Nat.pow_le_pow_right (by norm_num) (by omega)
        have h2 : 10 ^ (d + 1) ≤ a * 10 ^ (d + 1) := Nat.le_mul_of_pos_left _ ha
        omega
      rw [decDigits_def]
      simp only [hge, if_false]
      have hrw : a * 10 ^ (d + 1) + b = 10 * (a * 10 ^ d) + b := by ring
      have hdiv : (a * 10 ^ (d + 1) + b) / 10 = a * 10 ^ d + b / 10 := by
        rw [hrw, Nat.mul_add_div (by norm_num)]
      have hmod : (a * 10 ^ (d + 1) + b) % 10 = b % 10 := by
        rw [hrw, add_comm, Nat.mul_comm 10 (a * 10 ^ d), Nat.add_mul_mod_self_right]
      have hbdiv : b / 10 < 10 ^ d := by
        rw [Nat.div_lt_iff_lt_mul (by norm_num)]
        calc b < 10 ^ (d + 1) := hb
        _ = 10 ^ d * 10 := by ring
      rw [hdiv, hmod, ih a (b / 10) ha hbdiv, padStart_frac_step d hd b hb]
      simp [List.append_assoc]

theorem padded_split (v d : ℕ) (hd : 1 ≤ d) :
    padStartZeros (decDigits v) (d + 1) =
      decDigits (v / 10 ^ d) ++ padStartZeros (decDigits (v % 10 ^ d)) d := by
  by_cases h : v < 10 ^ d
  · rw [Nat.div_eq_of_lt h, Nat.mod_eq_of_lt h,
      decDigits_lt_ten (show (0:ℕ) < 10 by norm_num)]
    have hlen : (decDigits v).length ≤ d := decDigits_length_le d hd v h
    show List.replicate (d + 1 - (decDigits v).length) 0 ++ decDigits v =
      [0] ++ (List.replicate (d - (decDigits v).length) 0 ++ decDigits v)
    rw [show d + 1 - (decDigits v).length = (d - (decDigits v).length) + 1 by omega,
      List.replicate_succ]
    rfl
  · have hpos : (0:ℕ) < 10 ^ d := Nat.pos_pow_of_pos d (by norm_num)
    have ha : 0 < v / 10 ^ d := Nat.div_pos (le_of_not_lt h) hpos
    have hb : v % 10 ^ d < 10 ^ d := Nat.mod_lt _ hpos
    have hv : v = v / 10 ^ d * 10 ^ d + v % 10 ^ d := (Nat.div_add_mod' v (10 ^ d)).symm
    conv_lhs => rw [hv]
    rw [decDigits_mul_add d hd _ _ ha hb]
    apply padStartZeros_of_ge
    rw [List.length_append, padStartZeros_length _ _ (decDigits_length_le d hd _ hb)]
    have := decDigits_length_pos (v / 10 ^ d)
    omega

/-- C9 counterexample: at `v = 100105000`, `d = 8` the code returns
`"1.0010"` — the fraction keeps a trailing zero, because trailing zeros
are stripped before the 4-digit truncation — whereas the claimed
truncate-and-strip rendering of `v / 10^d = 1.00105` is `"1.001"`. -/
theorem formatTokenBalance_trailing_zero_cex :
    formatTokenBalance 100105000 8 4 = "1.0010" ∧
    formatTokenBalance 100105000 8 4 ≠ "1.001" := by decide

/-- C9 (amended): for `d ≥ 1`, `formatTokenBalance v d` renders the
decimal digits of `v / 10^d`, then — unless it is empty — a point and the
fraction obtained from the `d` padded digits of `v mod 10^d` by stripping
trailing zeros first and then truncating to at most 4 digits (so the
result may itself end in zeros); for `decimals ≤ 0` it returns the decimal
digits of `v` unchanged. -/
theorem formatTokenBalance_spec (v : ℕ) (d : ℕ) (e : ℤ) (hd : 1 ≤ d) (he : e ≤ 0) :
    formatTokenBalance v (d : ℤ) 4 =
      (if (formatSpecFraction v d).length ≠ 0 then
        digitsToString (decDigits (v / 10 ^ d)) ++ "." ++ digitsToString (formatSpecFraction v d)
      else digitsToString (decDigits (v / 10 ^ d))) ∧
    formatTokenBalance v e 4 = digitsToString (decDigits v) := by
  constructor
  · have hd0 : ¬ ((d : ℤ) ≤ 0) := by
      rw [not_le]
      exact_mod_cast hd
    have hpos : (0:ℕ) < 10 ^ d := Nat.pos_pow_of_pos d (by norm_num)
    have hFlen : (padStartZeros (decDigits (v % 10 ^ d)) d).length = d :=
      padStartZeros_length _ _ (decDigits_length_le d hd _ (Nat.mod_lt _ hpos))
    simp only [formatTokenBalance, hd0, if_false, Int.toNat_natCast]
    rw [padded_split v d hd, List.length_append, hFlen, Nat.add_sub_cancel,
      List.take_left, List.drop_left]
    have hc4 : ((0:ℤ) ≤ 4 ∧ (4:ℤ) <
        ((stripTrailingZeros (padStartZeros (decDigits (v % 10 ^ d)) d)).length : ℤ)) ↔
        4 < (stripTrailingZeros (padStartZeros (decDigits (v % 10 ^ d)) d)).length := by
      constructor
      · rintro ⟨-, h⟩; exact_mod_cast h
      · intro h; exact ⟨by norm_num, by exact_mod_cast h⟩
    by_cases hc : 4 < (stripTrailingZeros (padStartZeros (decDigits (v % 10 ^ d)) d)).length
    · rw [if_pos (hc4.mpr hc)]
      simp only [formatSpecFraction, hc, if_true]
      rfl
    · rw [if_neg (fun h => hc (hc4.mp h))]
      simp only [formatSpecFraction, hc, if_false]
  · simp [formatTokenBalance, he]

theorem formatTokenBalance_spec_witness :
    formatTokenBalance 250 (2 : ℤ) 4 =
      (if (formatSpecFraction 250 2).length ≠ 0 then
        digitsToString (decDigits (250 / 10 ^ 2)) ++ "." ++ digitsToString (formatSpecFraction 250 2)
      else digitsToString (decDigits (250 / 10 ^ 2))) ∧
    formatTokenBalance 250 0 4 = digitsToString (decDigits 250) :=
  formatTokenBalance_spec 250 2 0 (by decide) (by decide)
